import Mathlib

/-!
Verification development for the reverse-proxy gateway of the PAD repository
(CacheManager, LoadBalancer, ProxyGateway).  The repository ships only the
test suites for these components; the component implementations themselves
are absent, so every operation below is modelled from the specification's
own description of the component, stated over explicit state values with
time passed as an explicit parameter.
-/

namespace PAD

/-! ### String helpers (substring / prefix tests on character lists) -/

/-- Boolean prefix test on character lists. -/
def isPrefixOfL : List Char → List Char → Bool
  | [], _ => true
  | _ :: _, [] => false
  | a :: as, b :: bs => a == b && isPrefixOfL as bs

/-- Boolean infix (contiguous substring) test on character lists. -/
def isInfixOfL (p : List Char) : List Char → Bool
  | [] => isPrefixOfL p []
  | b :: bs => isPrefixOfL p (b :: bs) || isInfixOfL p bs

/-- `containsSubstr s pat` is true when `pat` occurs contiguously in `s`. -/
def containsSubstr (s pat : String) : Bool :=
  isInfixOfL pat.data s.data

/-- `strStartsWith s pre` is true when `s` begins with `pre`. -/
def strStartsWith (s pre : String) : Bool :=
  isPrefixOfL pre.data s.data

/-! ### CacheManager data model

Modelled from the spec: the repository's `src/proxy/cache/CacheManager.js`
is not present (only its test suite is), so `CacheEntry` and the cache
store are taken from the spec's data model: `key`, `value`, `createdAt`,
`ttlSeconds`, `lastAccessedAt`, a bounded map with LRU eviction and TTL
expiry, plus a configured maximum size and default TTL. -/

structure CacheEntry (V : Type) where
  value : V
  createdAt : Nat
  ttlSeconds : Int
  lastAccessedAt : Nat
deriving DecidableEq

structure CacheState (V : Type) where
  entries : List (String × CacheEntry V)
  maxSize : Nat
  defaultTtl : Int
deriving DecidableEq

/-- A fresh entry created at time `now` with the given ttl. -/
def mkEntry {V : Type} (v : V) (ttl : Int) (now : Nat) : CacheEntry V :=
  ⟨v, now, ttl, now⟩

/-- Modelled from the spec: an entry is expired once
`now - createdAt > ttlSeconds`. -/
def expired {V : Type} (e : CacheEntry V) (now : Nat) : Bool :=
  e.ttlSeconds < (now : Int) - (e.createdAt : Int)

/-- Modelled from the spec: `get` returns null and removes the entry if
expired; otherwise refreshes `lastAccessedAt` and returns the stored
value.  (`CacheManager.js` is absent from the sources.) -/
def CacheState.get {V : Type} (st : CacheState V) (k : String) (now : Nat) :
    Option V × CacheState V :=
  match st.entries.lookup k with
  | none => (none, st)
  | some e =>
    if expired e now then
      (none, { st with entries := st.entries.filter (fun x => !(x.1 == k)) })
    else
      (some e.value,
       { st with entries := st.entries.map (fun x =>
           if x.1 == k then (x.1, { x.2 with lastAccessedAt := now }) else x) })

/-- Insert or overwrite the entry for `k` (any previous binding removed),
the new entry placed at the front of the store. -/
def CacheState.insertEntry {V : Type} (st : CacheState V) (k : String) (v : V)
    (ttl : Int) (now : Nat) : CacheState V :=
  { st with entries := (k, mkEntry v ttl now) :: st.entries.filter (fun x => !(x.1 == k)) }

/-- Fold computing the key and `lastAccessedAt` of a least-recently-accessed
entry (later entries win ties). -/
def lruFold {V : Type} (b : String × Nat) : List (String × CacheEntry V) → String × Nat
  | [] => b
  | e :: es => lruFold (if e.2.lastAccessedAt ≤ b.2 then (e.1, e.2.lastAccessedAt) else b) es

/-- Modelled from the spec: evict the least-recently-accessed entry
(oldest `lastAccessedAt`).  The tests only require the mechanism to exist;
the spec fixes its policy. -/
def CacheState.evictLRU {V : Type} (st : CacheState V) : CacheState V :=
  match st.entries with
  | [] => st
  | e :: es =>
    let m := lruFold (e.1, e.2.lastAccessedAt) es
    { st with entries := (e :: es).filter (fun x => !(x.1 == m.1)) }

/-- Evict least-recently-accessed entries until the store is within its
bound (fuel-driven; `fuel` at least the store size suffices). -/
def CacheState.evictUntil {V : Type} : Nat → CacheState V → CacheState V
  | 0, st => st
  | Nat.succ n, st =>
    if st.entries.length ≤ st.maxSize then st
    else CacheState.evictUntil n st.evictLRU

/-- Modelled from the spec: `set` inserts/overwrites; malformed TTL
(negative/zero) is treated as "do not cache"; if the resulting size
exceeds the configured maximum, least-recently-accessed entries are
evicted until within bound. -/
def CacheState.set {V : Type} (st : CacheState V) (k : String) (v : V)
    (ttl : Int) (now : Nat) : CacheState V :=
  if ttl ≤ 0 then st
  else
    let st' := st.insertEntry k v ttl now
    CacheState.evictUntil st'.entries.length st'

/-- Modelled from the spec: `set` with the ttl argument omitted uses the
configured default TTL. -/
def CacheState.setDefault {V : Type} (st : CacheState V) (k : String) (v : V)
    (now : Nat) : CacheState V :=
  st.set k v st.defaultTtl now

/-- Modelled from the spec: `delete(key) -> bool`. -/
def CacheState.delete {V : Type} (st : CacheState V) (k : String) :
    Bool × CacheState V :=
  match st.entries.lookup k with
  | none => (false, st)
  | some _ => (true, { st with entries := st.entries.filter (fun x => !(x.1 == k)) })

/-- Modelled from the spec: `clear()` empties the store. -/
def CacheState.clear {V : Type} (st : CacheState V) : CacheState V :=
  { st with entries := [] }

/-- Modelled from the spec: `cleanup()` removes all currently expired
entries (the periodic sweep). -/
def CacheState.cleanup {V : Type} (st : CacheState V) (now : Nat) : CacheState V :=
  { st with entries := st.entries.filter (fun x => !(expired x.2 now)) }

/-- Modelled from the spec: `invalidatePattern(pattern) -> count` removes
the entries whose keys match and returns how many were removed. -/
def CacheState.invalidatePattern {V : Type} (st : CacheState V)
    (p : String → Bool) : Nat × CacheState V :=
  ((st.entries.filter (fun x => p x.1)).length,
   { st with entries := st.entries.filter (fun x => !(p x.1)) })

/-- Modelled from the spec: `getStats() -> {size, maxSize, expiredEntries}`. -/
def CacheState.getStats {V : Type} (st : CacheState V) (now : Nat) :
    Nat × Nat × Nat :=
  (st.entries.length, st.maxSize, (st.entries.filter (fun x => expired x.2 now)).length)

/-! ### Requests, cache keys and cache policies

Modelled from the spec: the proxy's request-facing cache policy functions
(`generateKey`, `isCacheable`, `isResponseCacheable`) live in the absent
`CacheManager.js`; they are reconstructed here from the spec's component
design.  A request carries method, path, query parameters, headers
(lower-cased names, including `accept`) and a body; the body and the
non-`accept` headers exist precisely so that theorems can quantify over
"any other request field". -/

structure Request where
  method : String
  path : String
  query : List (String × String)
  headers : List (String × String)
  body : String
deriving DecidableEq

/-- Drop one trailing slash from a character list. -/
def stripTrailingSlashAux : List Char → List Char
  | [] => []
  | [c] => if c = '/' then [] else [c]
  | c :: d :: rest => c :: stripTrailingSlashAux (d :: rest)

/-- Modelled from the spec: path normalization for cache keys (a bare `/`
is kept, otherwise one trailing slash is dropped). -/
def normalizePath (p : String) : String :=
  if p = "/" then p else ⟨stripTrailingSlashAux p.data⟩

/-- Lexicographic "less or equal" on character lists, comparing code
points. -/
def lexLe : List Char → List Char → Bool
  | [], _ => true
  | _ :: _, [] => false
  | a :: as, b :: bs =>
    if a.val.toNat < b.val.toNat then true
    else if b.val.toNat < a.val.toNat then false
    else lexLe as bs

lemma lexLe_total : ∀ as bs, lexLe as bs = true ∨ lexLe bs as = true
  | [], _ => Or.inl rfl
  | _ :: _, [] => Or.inr rfl
  | a :: as, b :: bs => by
    rcases Nat.lt_trichotomy a.val.toNat b.val.toNat with h | h | h
    · left; simp only [lexLe, if_pos h]
    · have hnab : ¬ a.val.toNat < b.val.toNat := by omega
      have hnba : ¬ b.val.toNat < a.val.toNat := by omega
      rcases lexLe_total as bs with ih | ih
      · left; simp only [lexLe, if_neg hnab, if_neg hnba]; exact ih
      · right; simp only [lexLe, if_neg hnab, if_neg hnba]; exact ih
    · right; simp only [lexLe, if_pos h]

lemma char_eq_of_toNat_eq {a b : Char} (h : a.val.toNat = b.val.toNat) : a = b :=
  Char.ext (UInt32.toNat.inj h)

lemma lexLe_trans : ∀ as bs cs, lexLe as bs = true → lexLe bs cs = true →
    lexLe as cs = true
  | [], _, _, _, _ => rfl
  | _ :: _, [], _, hab, _ => by simp [lexLe] at hab
  | _ :: _, _ :: _, [], _, hbc => by simp [lexLe] at hbc
  | a :: as, b :: bs, c :: cs, hab, hbc => by
    rcases Nat.lt_trichotomy a.val.toNat b.val.toNat with h1 | h1 | h1
    · rcases Nat.lt_trichotomy b.val.toNat c.val.toNat with h2 | h2 | h2
      · simp only [lexLe, if_pos (Nat.lt_trans h1 h2)]
      · simp only [lexLe, if_pos (show a.val.toNat < c.val.toNat by omega)]
      · simp only [lexLe, if_neg (Nat.lt_asymm h2), if_pos h2] at hbc
        exact absurd hbc Bool.false_ne_true
    · have hnab : ¬ a.val.toNat < b.val.toNat := by omega
      have hnba : ¬ b.val.toNat < a.val.toNat := by omega
      rcases Nat.lt_trichotomy b.val.toNat c.val.toNat with h2 | h2 | h2
      · simp only [lexLe, if_pos (show a.val.toNat < c.val.toNat by omega)]
      · have hnbc : ¬ b.val.toNat < c.val.toNat := by omega
        have hncb : ¬ c.val.toNat < b.val.toNat := by omega
        have hnac : ¬ a.val.toNat < c.val.toNat := by omega
        have hnca : ¬ c.val.toNat < a.val.toNat := by omega
        simp only [lexLe, if_neg hnab, if_neg hnba] at hab
        simp only [lexLe, if_neg hnbc, if_neg hncb] at hbc
        simp only [lexLe, if_neg hnac, if_neg hnca]
        exact lexLe_trans as bs cs hab hbc
      · simp only [lexLe, if_neg (Nat.lt_asymm h2), if_pos h2] at hbc
        exact absurd hbc Bool.false_ne_true
    · simp only [lexLe, if_neg (Nat.lt_asymm h1), if_pos h1] at hab
      exact absurd hab Bool.false_ne_true

lemma lexLe_antisymm : ∀ as bs, lexLe as bs = true → lexLe bs as = true → as = bs
  | [], [], _, _ => rfl
  | [], _ :: _, _, hba => by
    simp only [lexLe] at hba
    exact absurd hba Bool.false_ne_true
  | _ :: _, [], hab, _ => by
    simp only [lexLe] at hab
    exact absurd hab Bool.false_ne_true
  | a :: as, b :: bs, hab, hba => by
    rcases Nat.lt_trichotomy a.val.toNat b.val.toNat with h | h | h
    · simp only [lexLe, if_neg (Nat.lt_asymm h), if_pos h] at hba
      exact absurd hba Bool.false_ne_true
    · have hnab : ¬ a.val.toNat < b.val.toNat := by omega
      have hnba : ¬ b.val.toNat < a.val.toNat := by omega
      simp only [lexLe, if_neg hnab, if_neg hnba] at hab hba
      rw [char_eq_of_toNat_eq h, lexLe_antisymm as bs hab hba]
    · simp only [lexLe, if_neg (Nat.lt_asymm h), if_pos h] at hab
      exact absurd hab Bool.false_ne_true

/-- Boolean ordering of query parameters: by name, ties broken by value. -/
def keyLe (a b : String × String) : Bool :=
  if a.1.data = b.1.data then lexLe a.2.data b.2.data
  else lexLe a.1.data b.1.data

/-- Ordering of query parameters as a proposition. -/
def qle (a b : String × String) : Prop :=
  keyLe a b = true

instance : DecidableRel qle := fun a b => by
  unfold qle; infer_instance

lemma strDataInj : ∀ {s t : String}, s.data = t.data → s = t
  | ⟨_⟩, ⟨_⟩, h => congrArg String.mk h

instance : IsTotal (String × String) qle where
  total a b := by
    unfold qle keyLe
    by_cases h : a.1.data = b.1.data
    · rw [if_pos h, if_pos h.symm]
      exact lexLe_total a.2.data b.2.data
    · rw [if_neg h, if_neg (fun e : b.1.data = a.1.data => h e.symm)]
      exact lexLe_total a.1.data b.1.data

instance : IsTrans (String × String) qle where
  trans a b c hab hbc := by
    unfold qle keyLe at hab hbc ⊢
    by_cases h1 : a.1.data = b.1.data <;> by_cases h2 : b.1.data = c.1.data
    · rw [if_pos h1] at hab
      rw [if_pos h2] at hbc
      rw [if_pos (h1.trans h2)]
      exact lexLe_trans _ _ _ hab hbc
    · rw [if_pos h1] at hab
      rw [if_neg h2] at hbc
      rw [if_neg (fun e : a.1.data = c.1.data => h2 (h1.symm.trans e)), h1]
      exact hbc
    · rw [if_neg h1] at hab
      rw [if_pos h2] at hbc
      rw [if_neg (fun e : a.1.data = c.1.data => h1 (e.trans h2.symm)), ← h2]
      exact hab
    · rw [if_neg h1] at hab
      rw [if_neg h2] at hbc
      by_cases h3 : a.1.data = c.1.data
      · rw [← h3] at hbc
        exact absurd (lexLe_antisymm _ _ hab hbc) h1
      · rw [if_neg h3]
        exact lexLe_trans _ _ _ hab hbc

instance : IsAntisymm (String × String) qle where
  antisymm a b hab hba := by
    unfold qle keyLe at hab hba
    by_cases h : a.1.data = b.1.data
    · rw [if_pos h] at hab
      rw [if_pos h.symm] at hba
      exact Prod.ext (strDataInj h) (strDataInj (lexLe_antisymm _ _ hab hba))
    · rw [if_neg h] at hab
      rw [if_neg (fun e : b.1.data = a.1.data => h e.symm)] at hba
      exact absurd (lexLe_antisymm _ _ hab hba) h

/-- Sort query parameters into canonical order. -/
def sortQuery (q : List (String × String)) : List (String × String) :=
  q.insertionSort qle

/-- The request's `Accept` header (empty when absent). -/
def acceptOf (r : Request) : String :=
  (r.headers.lookup "accept").getD ""

/-- Modelled from the spec: the cache key is a pure function of request
method, normalized path, sorted query parameters, and the `Accept`
header. -/
def generateKey (r : Request) : String :=
  r.method ++ "|" ++ normalizePath r.path ++ "|" ++
    String.intercalate "&" ((sortQuery r.query).map (fun q => q.1 ++ "=" ++ q.2)) ++
    "|" ++ acceptOf r

/-- The built-in dynamic-parameter denylist. -/
def dynamicNamePatterns : List String := ["time", "timestamp", "nonce"]

/-- A query-parameter name is dynamic when it contains one of the built-in
denylist patterns or any caller-supplied pattern. -/
def isDynamicName (extra : List String) (name : String) : Bool :=
  (dynamicNamePatterns ++ extra).any (fun pat => containsSubstr name pat)

/-- Modelled from the spec: `isCacheable(request)` is true iff the method
is GET and no query-parameter name matches the dynamic-parameter
denylist. -/
def isCacheable (extra : List String) (r : Request) : Bool :=
  r.method == "GET" && r.query.all (fun q => !(isDynamicName extra q.1))

/-- A captured backend response: status code, header mapping, body. -/
structure GResponse where
  status : Nat
  headers : List (String × String)
  body : String
deriving DecidableEq

/-- Modelled from the spec: `isResponseCacheable(response)` is true iff
the status is in the 200–299 range and no `Cache-Control` directive
`no-store` or `no-cache` is present. -/
def isResponseCacheable (resp : GResponse) : Bool :=
  (200 ≤ resp.status && resp.status ≤ 299) &&
    (match resp.headers.lookup "cache-control" with
     | none => true
     | some v => !(containsSubstr v "no-store" || containsSubstr v "no-cache"))

/-! ### LoadBalancer

Modelled from the spec: the repository's load-balancer implementation is
absent; the spec describes an insertion-ordered backend list, a cyclic
cursor, health-aware skipping, and an Unavailable signal when every
backend is unhealthy. -/

structure Backend where
  address : String
  healthy : Bool
  consecutiveFailures : Nat
  totalRequests : Nat
deriving DecidableEq

structure LBState where
  backends : List Backend
  cursor : Nat
  failureThreshold : Nat
deriving DecidableEq

/-- Advance from index `i`, skipping unhealthy backends; `fuel` bounds the
scan (one full cycle suffices).  Returns the selected backend (if any) and
the new cursor. -/
def LBState.nextFrom : Nat → Nat → LBState → Option Backend × Nat
  | 0, i, _ => (none, i)
  | Nat.succ fuel, i, st =>
    match st.backends.get? (i % st.backends.length) with
    | none => (none, i)
    | some b =>
      if b.healthy then (some b, (i + 1) % st.backends.length)
      else LBState.nextFrom fuel ((i + 1) % st.backends.length) st

/-- Modelled from the spec: `next()` advances the cursor cyclically,
skipping unhealthy backends; if every backend is unhealthy it returns an
Unavailable signal (`none`). -/
def LBState.next (st : LBState) : Option Backend × LBState :=
  let r := LBState.nextFrom st.backends.length st.cursor st
  (r.1, { st with cursor := r.2 })

/-- Run `next` a number of times, collecting the selections. -/
def LBState.run : Nat → LBState → List (Option Backend) × LBState
  | 0, st => ([], st)
  | Nat.succ n, st =>
    let r := st.next
    let rest := LBState.run n r.2
    (r.1 :: rest.1, rest.2)

/-- Modelled from the spec: the health-probe loop (or an operator) marks a
backend healthy or unhealthy by address. -/
def LBState.setHealthy (st : LBState) (addr : String) (h : Bool) : LBState :=
  { st with backends := st.backends.map (fun b =>
      if b.address == addr then
        { address := b.address, healthy := h
          consecutiveFailures := b.consecutiveFailures
          totalRequests := b.totalRequests }
      else b) }

/-- Modelled from the spec: `reportOutcome(backend, success)` resets the
failure counter on success and, on failure, increments it and marks the
backend unhealthy once the consecutive-failure threshold is crossed. -/
def LBState.reportOutcome (st : LBState) (addr : String) (success : Bool) : LBState :=
  { st with backends := st.backends.map (fun b =>
      if b.address == addr then
        if success then
          { address := b.address, healthy := b.healthy
            consecutiveFailures := 0, totalRequests := b.totalRequests + 1 }
        else
          { address := b.address
            healthy := if st.failureThreshold ≤ b.consecutiveFailures + 1 then false else b.healthy
            consecutiveFailures := b.consecutiveFailures + 1
            totalRequests := b.totalRequests + 1 }
      else b) }

/-! ### ProxyGateway forwarding loop

Modelled from the spec: the gateway's forwarding loop selects a backend,
forwards, and on success (any application-level status, 2xx–5xx alike)
reports success and returns the response unchanged; only connectivity
failures/timeouts report failure and retry against the next backend. -/

inductive BackendReply where
  | ok (resp : GResponse)
  | connFail
deriving DecidableEq

inductive GatewayResult where
  | success (resp : GResponse) (backendAddress : String) (attempts : Nat)
  | noHealthyBackend
  | exhausted
deriving DecidableEq

/-- The forwarding loop: `respond` gives each backend's reply, `fuel`
bounds the attempts, `attempts` counts attempts already made. -/
def forwardLoop (respond : String → BackendReply) :
    Nat → LBState → Nat → GatewayResult × LBState
  | 0, st, _ => (GatewayResult.exhausted, st)
  | Nat.succ fuel, st, attempts =>
    match st.next with
    | (none, st') => (GatewayResult.noHealthyBackend, st')
    | (some b, st') =>
      match respond b.address with
      | BackendReply.ok r =>
          (GatewayResult.success r b.address (attempts + 1),
           st'.reportOutcome b.address true)
      | BackendReply.connFail =>
          forwardLoop respond fuel (st'.reportOutcome b.address false) (attempts + 1)

/-! ### Sample states used by concrete scenarios -/

def bOne : Backend := ⟨"b1", true, 0, 0⟩

def bTwo : Backend := ⟨"b2", true, 0, 0⟩

def bThree : Backend := ⟨"b3", true, 0, 0⟩

/-- Three healthy backends, cursor at the first. -/
def lbInit : LBState := ⟨[bOne, bTwo, bThree], 0, 3⟩

/-- Cache holding `employees:1`, `employees:2` and `departments:1`. -/
def invState : CacheState Nat :=
  (((⟨[], 10, 10⟩ : CacheState Nat).set "employees:1" 1 10 0).set
      "employees:2" 2 10 0).set "departments:1" 3 10 0

/-- The `/^employees:/` invalidation pattern. -/
def empPattern : String → Bool := fun k => strStartsWith k "employees:"

/-! ### Supporting lemmas -/

lemma length_filter_lt {α : Type} (p : α → Bool) :
    ∀ (l : List α) (x : α), x ∈ l → p x = false → (l.filter p).length < l.length
  | a :: l, x, hx, hpx => by
    rcases List.mem_cons.mp hx with rfl | hx'
    · rw [List.filter_cons, if_neg (by simp [hpx])]
      exact Nat.lt_succ_of_le (List.length_filter_le p l)
    · rw [List.filter_cons]
      by_cases hpa : p a = true
      · rw [if_pos (by simp [hpa])]
        simpa using Nat.succ_lt_succ (length_filter_lt p l x hx' hpx)
      · rw [if_neg (by simp [hpa])]
        exact Nat.lt_succ_of_lt (length_filter_lt p l x hx' hpx)

lemma lruFold_snd_le {V : Type} :
    ∀ (es : List (String × CacheEntry V)) (b), (lruFold b es).2 ≤ b.2
  | [], _ => le_refl _
  | e :: es, b => by
    unfold lruFold
    by_cases h : e.2.lastAccessedAt ≤ b.2
    · rw [if_pos h]
      exact le_trans (lruFold_snd_le es _) h
    · rw [if_neg h]
      exact lruFold_snd_le es b

lemma lruFold_snd_le_mem {V : Type} :
    ∀ (es : List (String × CacheEntry V)) (b) (e), e ∈ es →
      (lruFold b es).2 ≤ e.2.lastAccessedAt
  | e' :: es, b, e, h => by
    unfold lruFold
    rcases List.mem_cons.mp h with rfl | h'
    · by_cases hc : e.2.lastAccessedAt ≤ b.2
      · rw [if_pos hc]
        exact lruFold_snd_le es _
      · rw [if_neg hc]
        exact le_trans (lruFold_snd_le es b) (le_of_not_le hc)
    · by_cases hc : e'.2.lastAccessedAt ≤ b.2
      · rw [if_pos hc]
        exact lruFold_snd_le_mem es _ e h'
      · rw [if_neg hc]
        exact lruFold_snd_le_mem es b e h'

lemma lruFold_mem {V : Type} :
    ∀ (es : List (String × CacheEntry V)) (b),
      lruFold b es = b ∨ ∃ e ∈ es, lruFold b es = (e.1, e.2.lastAccessedAt)
  | [], _ => Or.inl rfl
  | e :: es, b => by
    unfold lruFold
    by_cases hc : e.2.lastAccessedAt ≤ b.2
    · rw [if_pos hc]
      rcases lruFold_mem es (e.1, e.2.lastAccessedAt) with h | ⟨e', he', h⟩
      · exact Or.inr ⟨e, List.mem_cons_self _ _, h⟩
      · exact Or.inr ⟨e', List.mem_cons_of_mem _ he', h⟩
    · rw [if_neg hc]
      rcases lruFold_mem es b with h | ⟨e', he', h⟩
      · exact Or.inl h
      · exact Or.inr ⟨e', List.mem_cons_of_mem _ he', h⟩

lemma lruFold_key_of_exists {V : Type} :
    ∀ (es : List (String × CacheEntry V)) (b),
      (∃ e ∈ es, e.2.lastAccessedAt ≤ b.2) → ∃ e ∈ es, (lruFold b es).1 = e.1
  | [], _, h => absurd h (by simp)
  | e :: es, b, h => by
    unfold lruFold
    by_cases hc : e.2.lastAccessedAt ≤ b.2
    · rw [if_pos hc]
      rcases lruFold_mem es (e.1, e.2.lastAccessedAt) with hr | ⟨e', he', hr⟩
      · exact ⟨e, List.mem_cons_self _ _, by rw [hr]⟩
      · exact ⟨e', List.mem_cons_of_mem _ he', by rw [hr]⟩
    · rw [if_neg hc]
      rcases h with ⟨e0, he0, hv⟩
      rcases List.mem_cons.mp he0 with rfl | he0'
      · exact absurd hv hc
      · rcases lruFold_key_of_exists es b ⟨e0, he0', hv⟩ with ⟨e', he', hk⟩
        exact ⟨e', List.mem_cons_of_mem _ he', hk⟩

lemma mem_filter_key_ne {V : Type} {l : List (String × CacheEntry V)} {k : String}
    {x : String × CacheEntry V} (hx : x ∈ l.filter (fun x => !(x.1 == k))) :
    x.1 ≠ k := by
  have h := (List.mem_filter.mp hx).2
  simpa using h

lemma set_entries_shape {V : Type} (st : CacheState V) (k : String) (v : V)
    (ttl : Int) (now : Nat)
    (httl : 0 < ttl) (hsz : st.entries.length ≤ st.maxSize) (hmax : 1 ≤ st.maxSize)
    (hacc : ∀ e ∈ st.entries, e.2.lastAccessedAt ≤ now) :
    ∃ rest, (st.set k v ttl now).entries = (k, mkEntry v ttl now) :: rest ∧
      (∀ x ∈ rest, x.1 ≠ k) ∧ rest.length + 1 ≤ st.maxSize := by
  unfold CacheState.set
  rw [if_neg (by omega : ¬ ttl ≤ 0)]
  show ∃ rest,
      (CacheState.evictUntil (st.insertEntry k v ttl now).entries.length
        (st.insertEntry k v ttl now)).entries = (k, mkEntry v ttl now) :: rest ∧
      (∀ x ∈ rest, x.1 ≠ k) ∧ rest.length + 1 ≤ st.maxSize
  have hins : (st.insertEntry k v ttl now).entries =
      (k, mkEntry v ttl now) :: st.entries.filter (fun x => !(x.1 == k)) := rfl
  set olds := st.entries.filter (fun x => !(x.1 == k)) with holds
  have hlen : (st.insertEntry k v ttl now).entries.length = olds.length + 1 := by
    rw [hins]; rfl
  rw [hlen]
  by_cases hA : olds.length + 1 ≤ st.maxSize
  · rw [show CacheState.evictUntil (olds.length + 1) (st.insertEntry k v ttl now) =
        st.insertEntry k v ttl now from by
      unfold CacheState.evictUntil
      rw [if_pos (by rw [hlen]; exact hA)]]
    exact ⟨olds, hins, fun x hx => mem_filter_key_ne hx, hA⟩
  · have h1 : olds.length ≤ st.entries.length := List.length_filter_le _ _
    have heq : olds.length = st.maxSize := by omega
    have hne : olds ≠ [] := by
      intro h
      rw [h] at heq
      simp at heq
      omega
    obtain ⟨e0, he0⟩ := List.exists_mem_of_ne_nil olds hne
    have he0' : e0 ∈ st.entries := (List.mem_filter.mp he0).1
    have hv0 : e0.2.lastAccessedAt ≤ now := hacc e0 he0'
    obtain ⟨em, hem, hkm⟩ := lruFold_key_of_exists olds (k, now) ⟨e0, he0, hv0⟩
    have hmk : (lruFold (k, now) olds).1 ≠ k := by
      rw [hkm]
      exact mem_filter_key_ne hem
    have hev : (st.insertEntry k v ttl now).evictLRU =
        { st with entries := (k, mkEntry v ttl now) ::
            olds.filter (fun x => !(x.1 == (lruFold (k, now) olds).1)) } := by
      show CacheState.evictLRU
        { st with entries := (k, mkEntry v ttl now) :: olds } = _
      unfold CacheState.evictLRU
      simp only [List.filter_cons]
      rw [if_pos (by
        simp only [Bool.not_eq_true']
        exact beq_eq_false_iff_ne.mpr (fun e => hmk e.symm))]
      rfl
    have hflt : (olds.filter (fun x => !(x.1 == (lruFold (k, now) olds).1))).length
        < olds.length := by
      refine length_filter_lt _ olds em hem ?_
      rw [← hkm]
      simp
    obtain ⟨p, hp⟩ : ∃ p, st.maxSize = p + 1 := ⟨st.maxSize - 1, by omega⟩
    refine ⟨olds.filter (fun x => !(x.1 == (lruFold (k, now) olds).1)), ?_, ?_, ?_⟩
    · rw [show CacheState.evictUntil (olds.length + 1) (st.insertEntry k v ttl now) =
          (st.insertEntry k v ttl now).evictLRU from by
        unfold CacheState.evictUntil
        rw [if_neg (by rw [hlen]; exact hA)]
        rw [heq, hp]
        unfold CacheState.evictUntil
        rw [if_pos (by
          rw [hev]
          simp only [List.length_cons]
          omega)]]
      rw [hev]
    · intro x hx
      exact mem_filter_key_ne (List.mem_of_mem_filter hx)
    · omega

lemma lookup_filter_self {V : Type} :
    ∀ (l : List (String × CacheEntry V)) (k : String),
      (l.filter (fun x => !(x.1 == k))).lookup k = none
  | [], _ => rfl
  | (a, e) :: l, k => by
    rw [List.filter_cons]
    by_cases h : a = k
    · subst h
      rw [if_neg (by simp)]
      exact lookup_filter_self l a
    · have hb : (k == a) = false := beq_eq_false_iff_ne.mpr (fun e => h e.symm)
      rw [if_pos (by simp [h])]
      simp only [List.lookup, hb]
      exact lookup_filter_self l k

lemma lookup_filter_pred {V : Type} (p : String → Bool) :
    ∀ (l : List (String × CacheEntry V)) (k : String),
      (l.filter (fun x => !(p x.1))).lookup k =
        if p k = true then none else l.lookup k
  | [], k => by
    by_cases h : p k = true <;> simp [h, List.lookup]
  | (a, e) :: l, k => by
    rw [List.filter_cons]
    by_cases hka : k = a
    · subst hka
      by_cases hpk : p k = true
      · rw [if_neg (by simp [hpk])]
        rw [lookup_filter_pred p l k, if_pos hpk, if_pos hpk]
      · have hpk' : p k = false := by simpa using hpk
        rw [if_pos (by simp [hpk'])]
        rw [if_neg hpk]
        simp only [List.lookup, beq_self_eq_true]
    · have hb : (k == a) = false := beq_eq_false_iff_ne.mpr hka
      by_cases hpa : p a = true
      · rw [if_neg (by simp [hpa])]
        simp only [List.lookup, hb]
        exact lookup_filter_pred p l k
      · have hpa' : p a = false := by simpa using hpa
        rw [if_pos (by simp [hpa'])]
        simp only [List.lookup, hb]
        exact lookup_filter_pred p l k

lemma lookup_refresh {V : Type} (now : Nat) :
    ∀ (l : List (String × CacheEntry V)) (k : String),
      (l.map (fun x => if x.1 == k then (x.1, { x.2 with lastAccessedAt := now }) else x)).lookup k
        = (l.lookup k).map (fun e => { e with lastAccessedAt := now })
  | [], _ => rfl
  | (a, e) :: l, k => by
    by_cases h : a = k
    · subst h
      simp only [List.map_cons]
      rw [if_pos (show (a == a) = true by simp)]
      simp only [List.lookup, beq_self_eq_true]
      rfl
    · have hb : (k == a) = false := beq_eq_false_iff_ne.mpr (fun e => h e.symm)
      have hb' : ¬ ((a == k) = true) := by simp [h]
      simp only [List.map_cons]
      rw [if_neg hb']
      simp only [List.lookup, hb]
      exact lookup_refresh now l k

lemma get_of_lookup_none {V : Type} {st : CacheState V} {k : String} (now : Nat)
    (h : st.entries.lookup k = none) : st.get k now = (none, st) := by
  unfold CacheState.get
  rw [h]

lemma get_of_expired {V : Type} {st : CacheState V} {k : String} {e : CacheEntry V}
    (now : Nat) (h : st.entries.lookup k = some e) (hx : expired e now = true) :
    st.get k now =
      (none, { st with entries := st.entries.filter (fun x => !(x.1 == k)) }) := by
  unfold CacheState.get
  rw [h]
  simp only [hx, if_pos]

lemma get_of_fresh {V : Type} {st : CacheState V} {k : String} {e : CacheEntry V}
    (now : Nat) (h : st.entries.lookup k = some e) (hx : expired e now = false) :
    st.get k now =
      (some e.value, { st with entries := st.entries.map (fun x =>
        if x.1 == k then (x.1, { x.2 with lastAccessedAt := now }) else x) }) := by
  unfold CacheState.get
  rw [h]
  simp only [hx, Bool.false_eq_true, if_neg, if_false]

lemma expired_mkEntry_iff {V : Type} (v : V) (ttl : Int) (now now2 : Nat) :
    expired (mkEntry v ttl now) now2 = true ↔ ttl < (now2 : Int) - (now : Int) := by
  unfold expired mkEntry
  simp

lemma set_lookup {V : Type} (st : CacheState V) (k : String) (v : V)
    (ttl : Int) (now : Nat)
    (httl : 0 < ttl) (hsz : st.entries.length ≤ st.maxSize) (hmax : 1 ≤ st.maxSize)
    (hacc : ∀ e ∈ st.entries, e.2.lastAccessedAt ≤ now) :
    (st.set k v ttl now).entries.lookup k = some (mkEntry v ttl now) := by
  obtain ⟨rest, hshape, -, -⟩ := set_entries_shape st k v ttl now httl hsz hmax hacc
  rw [hshape]
  simp [List.lookup]

lemma set_get_immediate {V : Type} (st : CacheState V) (k : String) (v : V)
    (ttl : Int) (now : Nat)
    (httl : 0 < ttl) (hsz : st.entries.length ≤ st.maxSize) (hmax : 1 ≤ st.maxSize)
    (hacc : ∀ e ∈ st.entries, e.2.lastAccessedAt ≤ now) :
    ((st.set k v ttl now).get k now).1 = some v := by
  have hl := set_lookup st k v ttl now httl hsz hmax hacc
  have hx : expired (mkEntry v ttl now) now = false := by
    rw [Bool.eq_false_iff]
    intro h
    have := (expired_mkEntry_iff v ttl now now).mp h
    omega
  rw [get_of_fresh now hl hx]
  rfl

lemma set_get_expired {V : Type} (st : CacheState V) (k : String) (v : V)
    (ttl : Int) (now now2 : Nat)
    (httl : 0 < ttl) (hsz : st.entries.length ≤ st.maxSize) (hmax : 1 ≤ st.maxSize)
    (hacc : ∀ e ∈ st.entries, e.2.lastAccessedAt ≤ now)
    (hlate : ttl < (now2 : Int) - (now : Int)) :
    ((st.set k v ttl now).get k now2).1 = none ∧
      (((st.set k v ttl now).get k now2).2).entries.lookup k = none := by
  have hl := set_lookup st k v ttl now httl hsz hmax hacc
  have hx : expired (mkEntry v ttl now) now2 = true :=
    (expired_mkEntry_iff v ttl now now2).mpr hlate
  rw [get_of_expired now2 hl hx]
  exact ⟨rfl, lookup_filter_self _ _⟩

lemma evictLRU_removes_min {V : Type} :
    ∀ (entries : List (String × CacheEntry V)) (M : Nat) (T : Int), entries ≠ [] →
      ∃ e ∈ entries,
        (∀ e' ∈ entries, e.2.lastAccessedAt ≤ e'.2.lastAccessedAt) ∧
        (CacheState.evictLRU ⟨entries, M, T⟩).entries =
          entries.filter (fun x => !(x.1 == e.1))
  | [], _, _, hne => absurd rfl hne
  | hd :: tl, M, T, _ => by
    have hred : (CacheState.evictLRU ⟨hd :: tl, M, T⟩).entries =
        (hd :: tl).filter
          (fun x => !(x.1 == (lruFold (hd.1, hd.2.lastAccessedAt) tl).1)) := rfl
    have hle1 : (lruFold (hd.1, hd.2.lastAccessedAt) tl).2 ≤ hd.2.lastAccessedAt :=
      lruFold_snd_le tl _
    have hle2 : ∀ e' ∈ tl,
        (lruFold (hd.1, hd.2.lastAccessedAt) tl).2 ≤ e'.2.lastAccessedAt :=
      fun e' h => lruFold_snd_le_mem tl _ e' h
    rcases lruFold_mem tl (hd.1, hd.2.lastAccessedAt) with hcase | ⟨e, he, hcase⟩
    · refine ⟨hd, List.mem_cons_self _ _, ?_, ?_⟩
      · intro e' he'
        rcases List.mem_cons.mp he' with rfl | h'
        · exact le_refl _
        · have h2 := hle2 e' h'
          rw [hcase] at h2
          exact h2
      · rw [hred, hcase]
    · refine ⟨e, List.mem_cons_of_mem _ he, ?_, ?_⟩
      · intro e' he'
        have hev : e.2.lastAccessedAt = (lruFold (hd.1, hd.2.lastAccessedAt) tl).2 := by
          rw [hcase]
        rcases List.mem_cons.mp he' with rfl | h'
        · rw [hev]; exact hle1
        · rw [hev]; exact hle2 e' h'
      · rw [hred, hcase]

lemma evictLRU_maxSize {V : Type} :
    ∀ (st : CacheState V), st.evictLRU.maxSize = st.maxSize
  | ⟨[], _, _⟩ => rfl
  | ⟨_ :: _, _, _⟩ => rfl

lemma evictLRU_length_lt {V : Type} (st : CacheState V) (hne : st.entries ≠ []) :
    st.evictLRU.entries.length < st.entries.length := by
  rcases st with ⟨entries, M, T⟩
  obtain ⟨e, he, -, hfe⟩ := evictLRU_removes_min entries M T hne
  rw [hfe]
  exact length_filter_lt _ entries e he (by simp)

lemma evictUntil_length_le {V : Type} :
    ∀ (n : Nat) (st : CacheState V), st.entries.length ≤ n →
      (CacheState.evictUntil n st).entries.length ≤ st.maxSize
  | 0, st, h => by
    unfold CacheState.evictUntil
    omega
  | Nat.succ n, st, h => by
    unfold CacheState.evictUntil
    by_cases hc : st.entries.length ≤ st.maxSize
    · rw [if_pos hc]; exact hc
    · rw [if_neg hc]
      have hne : st.entries ≠ [] := by
        intro hnil
        exact hc (by rw [hnil]; simp)
      have hlt := evictLRU_length_lt st hne
      have hrec := evictUntil_length_le n st.evictLRU (by omega)
      rw [evictLRU_maxSize] at hrec
      exact hrec

lemma set_size_le {V : Type} (st : CacheState V) (k : String) (v : V)
    (ttl : Int) (now : Nat) (hsz : st.entries.length ≤ st.maxSize) :
    (st.set k v ttl now).entries.length ≤ st.maxSize := by
  unfold CacheState.set
  by_cases httl : ttl ≤ 0
  · rw [if_pos httl]
    exact hsz
  · rw [if_neg httl]
    show (CacheState.evictUntil (st.insertEntry k v ttl now).entries.length
        (st.insertEntry k v ttl now)).entries.length ≤ st.maxSize
    have hrec := evictUntil_length_le (st.insertEntry k v ttl now).entries.length
      (st.insertEntry k v ttl now) (le_refl _)
    have hm : (st.insertEntry k v ttl now).maxSize = st.maxSize := rfl
    rw [hm] at hrec
    exact hrec

lemma cleanup_no_expired {V : Type} (st : CacheState V) (now : Nat) :
    ∀ x ∈ (st.cleanup now).entries, expired x.2 now = false := by
  intro x hx
  have h := (List.mem_filter.mp hx).2
  simpa using h

lemma get_fst_congr {V : Type} (st st' : CacheState V) (k : String) (now : Nat)
    (h : st.entries.lookup k = st'.entries.lookup k) :
    (st.get k now).1 = (st'.get k now).1 := by
  unfold CacheState.get
  rw [h]
  cases hv : st'.entries.lookup k with
  | none => rfl
  | some e => by_cases hx : expired e now <;> simp [hx]

lemma nextFrom_healthy :
    ∀ (fuel i : Nat) (st : LBState) (b : Backend) (j : Nat),
      LBState.nextFrom fuel i st = (some b, j) → b.healthy = true
  | 0, i, st, b, j, h => by
    simp [LBState.nextFrom] at h
  | Nat.succ fuel, i, st, b, j, h => by
    unfold LBState.nextFrom at h
    split at h
    · simp at h
    · rename_i b' hg
      split at h
      · rename_i hb
        have hbb : b' = b := by
          have h1 := congrArg Prod.fst h
          simpa using h1
        rw [← hbb]
        exact hb
      · exact nextFrom_healthy fuel _ st b j h

lemma nextFrom_none_of_all_unhealthy :
    ∀ (fuel i : Nat) (st : LBState),
      (∀ b ∈ st.backends, b.healthy = false) →
      (LBState.nextFrom fuel i st).1 = none
  | 0, _, _, _ => rfl
  | Nat.succ fuel, i, st, hall => by
    unfold LBState.nextFrom
    split
    · rfl
    · rename_i b hg
      rw [if_neg (by simp [hall b (List.get?_mem hg)])]
      exact nextFrom_none_of_all_unhealthy fuel _ st hall

lemma next_healthy (st : LBState) (b : Backend) (st' : LBState)
    (h : st.next = (some b, st')) : b.healthy = true := by
  unfold LBState.next at h
  have h1 : (LBState.nextFrom st.backends.length st.cursor st).1 = some b := by
    have := congrArg Prod.fst h
    simpa using this
  rcases hr : LBState.nextFrom st.backends.length st.cursor st with ⟨ob, j⟩
  rw [hr] at h1
  simp at h1
  rcases ob with _ | b'
  · cases h1
  · exact nextFrom_healthy _ _ st b j (by rw [hr, h1])

lemma next_none_of_all_unhealthy (st : LBState)
    (hall : ∀ b ∈ st.backends, b.healthy = false) : (st.next).1 = none := by
  unfold LBState.next
  exact nextFrom_none_of_all_unhealthy st.backends.length st.cursor st hall

lemma forwardLoop_ok (respond : String → BackendReply) (fuel : Nat)
    (st st' : LBState) (b : Backend) (r : GResponse) (a : Nat)
    (hnext : st.next = (some b, st'))
    (hresp : respond b.address = BackendReply.ok r) :
    forwardLoop respond (fuel + 1) st a =
      (GatewayResult.success r b.address (a + 1),
       st'.reportOutcome b.address true) := by
  simp only [forwardLoop, hnext, hresp]

lemma forwardLoop_connFail (respond : String → BackendReply) (fuel : Nat)
    (st st' : LBState) (b : Backend) (a : Nat)
    (hnext : st.next = (some b, st'))
    (hresp : respond b.address = BackendReply.connFail) :
    forwardLoop respond (fuel + 1) st a =
      forwardLoop respond fuel (st'.reportOutcome b.address false) (a + 1) := by
  simp only [forwardLoop, hnext, hresp]

/-! ### Claim theorems -/

/-- Claim C1: after `set(k, v, ttl)` with a positive ttl, an immediate
`get(k)` returns `v`; a `get` whose `lastAccessedAt` refresh applies leaves
the entry with `lastAccessedAt = now`; once more than `ttl` seconds have
elapsed since creation, `get(k)` returns null and removes the entry; and
the periodic sweep (`cleanup`) leaves no expired entry behind, so a cache
entry is never returned after expiry.  Stated under the cache invariants
(store within bound, nonzero capacity, access times not in the future). -/
theorem claim_C1_ttl_expiry {V : Type} (st : CacheState V) (k : String) (v : V)
    (ttl : Int) (now now2 : Nat)
    (httl : 0 < ttl) (hsz : st.entries.length ≤ st.maxSize) (hmax : 1 ≤ st.maxSize)
    (hacc : ∀ e ∈ st.entries, e.2.lastAccessedAt ≤ now) :
    ((st.set k v ttl now).get k now).1 = some v ∧
    (ttl < (now2 : Int) - (now : Int) →
      ((st.set k v ttl now).get k now2).1 = none ∧
      (((st.set k v ttl now).get k now2).2).entries.lookup k = none) ∧
    (∀ (st' : CacheState V) (k' : String) (now' : Nat) (e : CacheEntry V),
      st'.entries.lookup k' = some e → expired e now' = false →
      ((st'.get k' now').2).entries.lookup k' =
        some { e with lastAccessedAt := now' }) ∧
    (∀ (st' : CacheState V) (now' : Nat),
      ∀ x ∈ (st'.cleanup now').entries, expired x.2 now' = false) := by
  refine ⟨set_get_immediate st k v ttl now httl hsz hmax hacc, ?_, ?_, ?_⟩
  · intro hlate
    exact set_get_expired st k v ttl now now2 httl hsz hmax hacc hlate
  · intro st' k' now' e hl hx
    rw [get_of_fresh now' hl hx]
    show (st'.entries.map _).lookup k' = _
    rw [lookup_refresh now' st'.entries k', hl]
    rfl
  · intro st' now'
    exact cleanup_no_expired st' now'

/-- Closed witness for C1 at a concrete store, key, value and ttl. -/
theorem claim_C1_ttl_expiry_witness :
    (((⟨[], 1, 10⟩ : CacheState Nat).set "k" 7 10 0).get "k" 0).1 = some 7 :=
  (claim_C1_ttl_expiry (⟨[], 1, 10⟩ : CacheState Nat) "k" 7 10 0 11
    (by decide) (by decide) (by decide) (by simp)).1

/-- Claim C2: the cache size never exceeds the configured maximum after
`set` (given it was within the bound before); each LRU eviction removes
exactly an entry whose `lastAccessedAt` is minimal in the store; and in
the concrete over-capacity scenario (maxSize 2, three inserts at
increasing times) the final size is the maximum and the
least-recently-accessed entry is the one absent. -/
theorem claim_C2_size_and_lru :
    (∀ (V : Type) (st : CacheState V) (k : String) (v : V) (ttl : Int) (now : Nat),
      st.entries.length ≤ st.maxSize →
      (st.set k v ttl now).entries.length ≤ st.maxSize) ∧
    (∀ (V : Type) (st : CacheState V), st.entries ≠ [] →
      ∃ e ∈ st.entries,
        (∀ e' ∈ st.entries, e.2.lastAccessedAt ≤ e'.2.lastAccessedAt) ∧
        st.evictLRU.entries = st.entries.filter (fun x => !(x.1 == e.1))) ∧
    ((((⟨[], 2, 10⟩ : CacheState Nat).set "a" 1 10 0).set "b" 2 10 1).set
        "c" 3 10 2).entries.map Prod.fst = ["c", "b"] ∧
    (((((⟨[], 2, 10⟩ : CacheState Nat).set "a" 1 10 0).set "b" 2 10 1).set
        "c" 3 10 2).get "a" 2).1 = none := by
  refine ⟨?_, ?_, by decide, by decide⟩
  · intro V st k v ttl now hsz
    exact set_size_le st k v ttl now hsz
  · intro V st hne
    rcases st with ⟨entries, M, T⟩
    exact evictLRU_removes_min entries M T hne

/-- Closed witness for C2 at a concrete full store. -/
theorem claim_C2_size_and_lru_witness :
    ((⟨[("a", ⟨1, 0, 10, 0⟩)], 1, 10⟩ : CacheState Nat).set "b" 2 5 1).entries.length ≤ 1 :=
  claim_C2_size_and_lru.1 Nat ⟨[("a", ⟨1, 0, 10, 0⟩)], 1, 10⟩ "b" 2 5 1 (by decide)

/-- Claim C8: cache operations are total on missing keys — `get` of an
absent key returns null and leaves the state unchanged, `delete` of an
absent key returns false and leaves the state unchanged — and a `set`
with a malformed (zero or negative) TTL stores nothing: the state is
unchanged and a subsequent `get` of that (previously absent) key returns
null. -/
theorem claim_C8_totality :
    (∀ (V : Type) (st : CacheState V) (k : String) (now : Nat),
      st.entries.lookup k = none → st.get k now = (none, st)) ∧
    (∀ (V : Type) (st : CacheState V) (k : String),
      st.entries.lookup k = none → st.delete k = (false, st)) ∧
    (∀ (V : Type) (st : CacheState V) (k : String) (v : V) (ttl : Int) (now : Nat),
      ttl ≤ 0 → st.set k v ttl now = st) ∧
    (∀ (V : Type) (st : CacheState V) (k : String) (v : V) (ttl : Int)
        (now now2 : Nat),
      ttl ≤ 0 → st.entries.lookup k = none →
      ((st.set k v ttl now).get k now2).1 = none) := by
  have hset : ∀ (V : Type) (st : CacheState V) (k : String) (v : V) (ttl : Int)
      (now : Nat), ttl ≤ 0 → st.set k v ttl now = st := by
    intro V st k v ttl now h
    unfold CacheState.set
    rw [if_pos h]
  refine ⟨?_, ?_, hset, ?_⟩
  · intro V st k now h
    exact get_of_lookup_none now h
  · intro V st k h
    unfold CacheState.delete
    rw [h]
  · intro V st k v ttl now now2 h hl
    rw [hset V st k v ttl now h, get_of_lookup_none now2 hl]

/-- Closed witness for C8 at a concrete absent key. -/
theorem claim_C8_totality_witness :
    (⟨[], 2, 10⟩ : CacheState Nat).get "missing" 5 = (none, ⟨[], 2, 10⟩) :=
  claim_C8_totality.1 Nat ⟨[], 2, 10⟩ "missing" 5 (by decide)

/-- Claim C10: `set` with the ttl argument omitted falls back to the
configured default TTL; with a positive default (and the cache
invariants), an immediate `get` of the key returns the stored value, so
omitting the TTL is not treated as a malformed do-not-cache TTL. -/
theorem claim_C10_default_ttl {V : Type} (st : CacheState V) (k : String) (v : V)
    (now : Nat)
    (hdef : 0 < st.defaultTtl) (hsz : st.entries.length ≤ st.maxSize)
    (hmax : 1 ≤ st.maxSize)
    (hacc : ∀ e ∈ st.entries, e.2.lastAccessedAt ≤ now) :
    ((st.setDefault k v now).get k now).1 = some v := by
  unfold CacheState.setDefault
  exact set_get_immediate st k v st.defaultTtl now hdef hsz hmax hacc

/-- Closed witness for C10 at a concrete store with default ttl 10. -/
theorem claim_C10_default_ttl_witness :
    (((⟨[], 2, 10⟩ : CacheState Nat).setDefault "k" 42 3).get "k" 3).1 = some 42 :=
  claim_C10_default_ttl (⟨[], 2, 10⟩ : CacheState Nat) "k" 42 3
    (by decide) (by decide) (by decide) (by simp)

/-- Claim C3: `next()` never returns a backend marked unhealthy; when all
backends are unhealthy it returns the Unavailable signal (`none`); with
three healthy backends six sequential calls yield the cyclic sequence
b1,b2,b3,b1,b2,b3; and after marking b2 unhealthy the subsequent
selections skip it (b1,b3,b1,b3). -/
theorem claim_C3_round_robin :
    (∀ (st : LBState) (b : Backend) (st' : LBState),
      st.next = (some b, st') → b.healthy = true) ∧
    (∀ (st : LBState), (∀ b ∈ st.backends, b.healthy = false) →
      (st.next).1 = none) ∧
    (LBState.run 6 lbInit).1 =
      [some bOne, some bTwo, some bThree, some bOne, some bTwo, some bThree] ∧
    (LBState.run 4 (((LBState.run 6 lbInit).2).setHealthy "b2" false)).1 =
      [some bOne, some bThree, some bOne, some bThree] := by
  refine ⟨?_, ?_, by decide, by decide⟩
  · intro st b st' h
    exact next_healthy st b st' h
  · intro st hall
    exact next_none_of_all_unhealthy st hall

/-- Closed witness for C3: the first selection from the sample balancer. -/
theorem claim_C3_round_robin_witness : bOne.healthy = true :=
  claim_C3_round_robin.1 lbInit bOne ⟨[bOne, bTwo, bThree], 1, 3⟩ (by decide)

/-- Claim C9: when the selected backend answers with an application-level
response (any status, 4xx/5xx included), the gateway forwarding loop
returns that response unchanged after exactly one attempt and reports a
success outcome — no retry and no failure report; only a connectivity
failure makes the loop report failure and retry against the next
backend. -/
theorem claim_C9_error_passthrough :
    (∀ (respond : String → BackendReply) (fuel : Nat) (st st' : LBState)
        (b : Backend) (r : GResponse) (a : Nat),
      st.next = (some b, st') → respond b.address = BackendReply.ok r →
      forwardLoop respond (fuel + 1) st a =
        (GatewayResult.success r b.address (a + 1),
         st'.reportOutcome b.address true)) ∧
    (∀ (respond : String → BackendReply) (fuel : Nat) (st st' : LBState)
        (b : Backend) (a : Nat),
      st.next = (some b, st') → respond b.address = BackendReply.connFail →
      forwardLoop respond (fuel + 1) st a =
        forwardLoop respond fuel (st'.reportOutcome b.address false) (a + 1)) := by
  exact ⟨forwardLoop_ok, forwardLoop_connFail⟩

/-- Closed witness for C9: a backend 404 response is passed through
verbatim in a single attempt. -/
theorem claim_C9_error_passthrough_witness :
    forwardLoop (fun _ => BackendReply.ok ⟨404, [], "not found"⟩) 3 lbInit 0 =
      (GatewayResult.success ⟨404, [], "not found"⟩ "b1" 1,
       (⟨[bOne, bTwo, bThree], 1, 3⟩ : LBState).reportOutcome "b1" true) :=
  claim_C9_error_passthrough.1 (fun _ => BackendReply.ok ⟨404, [], "not found"⟩) 2
    lbInit ⟨[bOne, bTwo, bThree], 1, 3⟩ bOne ⟨404, [], "not found"⟩ 0
    (by decide) rfl

/-- Claim C4: `isCacheable(request)` is true iff the method is GET and no
query-parameter name matches the dynamic-parameter denylist (names
containing "time", "timestamp" or "nonce", or any caller-supplied
pattern); in particular it is false for every non-GET method and false
for a GET with a timestamp query parameter. -/
theorem claim_C4_cacheable :
    (∀ (extra : List String) (r : Request),
      isCacheable extra r = true ↔
        (r.method = "GET" ∧ ∀ q ∈ r.query,
          containsSubstr q.1 "time" = false ∧
          containsSubstr q.1 "timestamp" = false ∧
          containsSubstr q.1 "nonce" = false ∧
          ∀ pat ∈ extra, containsSubstr q.1 pat = false)) ∧
    (∀ (extra : List String) (r : Request),
      r.method ≠ "GET" → isCacheable extra r = false) ∧
    isCacheable [] ⟨"GET", "/e", [], [], ""⟩ = true ∧
    isCacheable [] ⟨"POST", "/e", [], [], ""⟩ = false ∧
    isCacheable [] ⟨"GET", "/e", [("timestamp", "123")], [], ""⟩ = false := by
  refine ⟨?_, ?_, by decide, by decide, by decide⟩
  · intro extra r
    unfold isCacheable isDynamicName dynamicNamePatterns
    simp [List.all_eq_true, List.any_eq_true, not_or]
  · intro extra r h
    unfold isCacheable
    rw [show (r.method == "GET") = false from beq_eq_false_iff_ne.mpr h]
    simp

/-- Closed witness for C4: a POST request is not cacheable. -/
theorem claim_C4_cacheable_witness :
    isCacheable [] ⟨"POST", "/x", [("id", "1")], [], ""⟩ = false :=
  claim_C4_cacheable.2.1 [] ⟨"POST", "/x", [("id", "1")], [], ""⟩ (by decide)

/-- Claim C5: `generateKey` is a pure function of exactly the request
method, normalized path, query parameters up to ordering, and the Accept
header: two requests agreeing on those four fields produce the same key
whatever their other fields (body, other headers) and whatever the
ordering of their query parameters; and the example requests for paths
`/employees/1` and `/employees/2` produce different keys. -/
theorem claim_C5_cache_key :
    (∀ r1 r2 : Request,
      r1.method = r2.method →
      normalizePath r1.path = normalizePath r2.path →
      r1.query.Perm r2.query →
      acceptOf r1 = acceptOf r2 →
      generateKey r1 = generateKey r2) ∧
    generateKey ⟨"GET", "/employees/1", [], [("accept", "application/json")], ""⟩ ≠
      generateKey ⟨"GET", "/employees/2", [], [("accept", "application/json")], ""⟩ := by
  refine ⟨?_, by decide⟩
  intro r1 r2 hm hp hq ha
  have hs : sortQuery r1.query = sortQuery r2.query := by
    apply List.eq_of_perm_of_sorted (r := qle)
    · exact (List.perm_insertionSort qle r1.query).trans
        (hq.trans (List.perm_insertionSort qle r2.query).symm)
    · exact List.sorted_insertionSort qle r1.query
    · exact List.sorted_insertionSort qle r2.query
  unfold generateKey
  rw [hm, hp, hs, ha]

/-- Closed witness for C5: permuting query parameters and changing the
body and unrelated headers leaves the key unchanged. -/
theorem claim_C5_cache_key_witness :
    generateKey ⟨"GET", "/e", [("a", "1"), ("b", "2")],
        [("accept", "application/json"), ("x-extra", "1")], "body-one"⟩ =
      generateKey ⟨"GET", "/e", [("b", "2"), ("a", "1")],
        [("x-extra", "2"), ("accept", "application/json")], "body-two"⟩ :=
  claim_C5_cache_key.1 _ _ rfl rfl (by decide) rfl

/-- Claim C6: `isResponseCacheable(response)` is true iff the status code
is in the 200–299 range and any `Cache-Control` header carries neither a
`no-store` nor a `no-cache` directive; in particular a 200 with
`cache-control: no-cache` and a 500 are both non-cacheable. -/
theorem claim_C6_response_cacheable :
    (∀ resp : GResponse,
      isResponseCacheable resp = true ↔
        (200 ≤ resp.status ∧ resp.status ≤ 299 ∧
          ∀ v, resp.headers.lookup "cache-control" = some v →
            containsSubstr v "no-store" = false ∧
            containsSubstr v "no-cache" = false)) ∧
    isResponseCacheable ⟨200, [], ""⟩ = true ∧
    isResponseCacheable ⟨500, [], ""⟩ = false ∧
    isResponseCacheable ⟨200, [("cache-control", "no-cache")], ""⟩ = false := by
  refine ⟨?_, by decide, by decide, by decide⟩
  intro resp
  unfold isResponseCacheable
  cases hv : resp.headers.lookup "cache-control" with
  | none =>
    simp [hv]
  | some v =>
    simp [hv, not_or]
    tauto

/-- Closed witness for C6: a plain 200 response is cacheable. -/
theorem claim_C6_response_cacheable_witness :
    isResponseCacheable ⟨200, [], ""⟩ = true :=
  (claim_C6_response_cacheable.1 ⟨200, [], ""⟩).mpr
    ⟨by decide, by decide, by intro v h; exact absurd h (by simp [List.lookup])⟩

/-- Claim C7: `invalidatePattern(p)` returns exactly the number of stored
entries whose keys match `p`, removes exactly those entries (a matching
key is no longer present, a non-matching key's binding and `get` result
are unchanged); concretely, with `employees:1`, `employees:2` and
`departments:1` stored, invalidating `/^employees:/` returns 2 and leaves
`departments:1` retrievable. -/
theorem claim_C7_invalidate :
    (∀ (V : Type) (st : CacheState V) (p : String → Bool),
      (st.invalidatePattern p).1 = st.entries.countP (fun x => p x.1)) ∧
    (∀ (V : Type) (st : CacheState V) (p : String → Bool) (k : String),
      p k = true → ((st.invalidatePattern p).2).entries.lookup k = none) ∧
    (∀ (V : Type) (st : CacheState V) (p : String → Bool) (k : String) (now : Nat),
      p k = false →
        ((st.invalidatePattern p).2).entries.lookup k = st.entries.lookup k ∧
        (((st.invalidatePattern p).2).get k now).1 = (st.get k now).1) ∧
    (invState.invalidatePattern empPattern).1 = 2 ∧
    (((invState.invalidatePattern empPattern).2).get "departments:1" 1).1 = some 3 := by
  have hlk : ∀ (V : Type) (st : CacheState V) (p : String → Bool) (k : String),
      ((st.invalidatePattern p).2).entries.lookup k =
        if p k = true then none else st.entries.lookup k :=
    fun V st p k => lookup_filter_pred p st.entries k
  refine ⟨?_, ?_, ?_, by decide, by decide⟩
  · intro V st p
    exact (List.countP_eq_length_filter _ _).symm
  · intro V st p k h
    rw [hlk, if_pos h]
  · intro V st p k now h
    have he : ((st.invalidatePattern p).2).entries.lookup k = st.entries.lookup k := by
      rw [hlk, if_neg (by simp [h])]
    exact ⟨he, get_fst_congr _ st k now he⟩

/-- Closed witness for C7: a matching key is gone after invalidation. -/
theorem claim_C7_invalidate_witness :
    ((invState.invalidatePattern empPattern).2).entries.lookup "employees:1" = none :=
  claim_C7_invalidate.2.1 Nat invState empPattern "employees:1" (by decide)

end PAD
